import Mathlib

/-!
# Verification of the metadata reconciliation and selection engine

Shallow embedding of the core logic of the `sf-metaexplorer` repository:

* `compareMetadata` — the reconciler of `src/services/MetadataService.ts`
  (the pure diff over the two inventories fetched by
  `listRemoteComponents` / `listLocalComponents`);
* the selection model of `useSelection` in `src/hooks/useMetadata.ts`;
* the cache-staleness computation of `src/components/App.tsx`;
* the git commit preload of `GitService` (unnamed source file);
* the retrieve/deploy result handling of `MetadataService.ts`, with the
  external transport modelled as an oracle.

External collaborator calls (git, the metadata transport) are modelled as
oracle records whose fields return `Except String _`: an `Except.error`
models a thrown fault, mirroring the `try`/`catch` structure of the source.
-/

namespace MetaExplorer

/-- `MetadataStatus` from `src/types/metadata.ts`:
`'local-only' | 'remote-only' | 'synced' | 'conflict'`. -/
inductive MetadataStatus where
  | localOnly
  | remoteOnly
  | synced
  | conflict
deriving DecidableEq, Repr

/-- `MetadataComponent` from `src/types/metadata.ts`.  Optional fields are
`Option`s; `Date` values are kept opaque as strings. -/
structure MetadataComponent where
  id : String
  type : String
  fullName : String
  fileName : Option String := none
  lastModifiedDate : Option String := none
  lastModifiedBy : Option String := none
  packageName : Option String := none
  isThirdParty : Option Bool := none
  status : MetadataStatus
deriving DecidableEq, Repr

/-- `MetadataComparison` from `src/types/metadata.ts`. -/
structure MetadataComparison where
  localOnly : List MetadataComponent
  remoteOnly : List MetadataComponent
  synced : List MetadataComponent
  conflicts : List MetadataComponent
deriving DecidableEq, Repr

/-- The pure core of `MetadataService.compareMetadata`
(`src/services/MetadataService.ts` lines 307–348).  The TS method first
awaits `listRemoteComponents`/`listLocalComponents` (external inventory
sources); the diff itself is a pure function of the two lists, embedded
here verbatim: a JS `Set` of fullNames per side, then three passes pushing
into `localOnly`, `remoteOnly` and `synced` (`conflicts` is never filled). -/
def compareMetadata (localComponents remoteComponents : List MetadataComponent) :
    MetadataComparison :=
  let remoteNames : Finset String := (remoteComponents.map (·.fullName)).toFinset
  let localNames : Finset String := (localComponents.map (·.fullName)).toFinset
  { localOnly :=
      (localComponents.filter (fun c => c.fullName ∉ remoteNames)).map
        (fun c => { c with status := MetadataStatus.localOnly })
    remoteOnly :=
      (remoteComponents.filter (fun c => c.fullName ∉ localNames)).map
        (fun c => { c with status := MetadataStatus.remoteOnly })
    synced :=
      (localComponents.filter (fun c => c.fullName ∈ remoteNames)).map
        (fun c =>
          let remoteComponent := remoteComponents.find? (fun r => r.fullName == c.fullName)
          { c with
              status := MetadataStatus.synced
              lastModifiedDate := remoteComponent.bind (·.lastModifiedDate)
              lastModifiedBy := remoteComponent.bind (·.lastModifiedBy) })
    conflicts := [] }

/-- Example components used by concrete scenarios and witnesses. -/
def exLocalA : MetadataComponent :=
  { id := "local-T-0", type := "T", fullName := "A", status := MetadataStatus.localOnly }

/-- Remote copy of component `A`, carrying remote modification metadata. -/
def exRemoteA : MetadataComponent :=
  { id := "remote-T-A", type := "T", fullName := "A",
    lastModifiedDate := some "2026-01-01", lastModifiedBy := some "admin",
    status := MetadataStatus.remoteOnly }

/-- Remote-only component `B`. -/
def exRemoteB : MetadataComponent :=
  { id := "remote-T-B", type := "T", fullName := "B",
    status := MetadataStatus.remoteOnly }

end MetaExplorer

namespace MetaExplorer

open MetadataStatus in
/-- C1: when the local and remote inventories are tagged `local-only` /
`remote-only` and fullNames are pairwise distinct on each side,
`compareMetadata` partitions the components by fullName into the three base
buckets with no loss and no duplication: the bucket sizes sum to the
cardinality of the union of the two fullName sets. -/
theorem compareMetadata_partition_card (l r : List MetadataComponent)
    (hl : (l.map (·.fullName)).Nodup) (hr : (r.map (·.fullName)).Nodup)
    (hlt : ∀ c ∈ l, c.status = MetadataStatus.localOnly)
    (hrt : ∀ c ∈ r, c.status = MetadataStatus.remoteOnly) :
    (compareMetadata l r).localOnly.length + (compareMetadata l r).remoteOnly.length
      + (compareMetadata l r).synced.length
      = ((l.map (·.fullName)).toFinset ∪ (r.map (·.fullName)).toFinset).card := by
  simp only [compareMetadata, List.length_map]
  set lN := (l.map (·.fullName)).toFinset with hlN
  set rN := (r.map (·.fullName)).toFinset with hrN
  have h1 : (l.filter (fun c => c.fullName ∉ rN)).length
      + (l.filter (fun c => c.fullName ∈ rN)).length = l.length := by
    have := List.length_eq_length_filter_add (l := l) (fun c => decide (c.fullName ∈ rN))
    simp only [decide_not] at this ⊢
    omega
  have h2 : (r.filter (fun c => c.fullName ∉ lN)).length
      = ((r.map (·.fullName)).filter (fun n => n ∉ lN)).length := by
    rw [List.filter_map, List.length_map]
    rfl
  have h3 : ((r.map (·.fullName)).filter (fun n => n ∉ lN)).length = (rN \ lN).card := by
    rw [← List.toFinset_card_of_nodup (hr.filter _), List.toFinset_filter]
    simp only [decide_eq_true_eq]
    rw [Finset.sdiff_eq_filter]
  have h4 : l.length = lN.card := by
    rw [hlN, List.toFinset_card_of_nodup hl, List.length_map]
  have h5 : (rN \ lN).card + lN.card = (lN ∪ rN).card := by
    rw [Finset.card_sdiff_add_card, Finset.union_comm]
  omega

/-- Witness for `compareMetadata_partition_card` at the concrete inventories
`[A(local)]` vs `[A(remote), B(remote)]`: the bucket sizes sum to `2`. -/
theorem compareMetadata_partition_card_witness :
    (compareMetadata [exLocalA] [exRemoteA, exRemoteB]).localOnly.length
      + (compareMetadata [exLocalA] [exRemoteA, exRemoteB]).remoteOnly.length
      + (compareMetadata [exLocalA] [exRemoteA, exRemoteB]).synced.length
      = (([exLocalA].map (·.fullName)).toFinset
          ∪ ([exRemoteA, exRemoteB].map (·.fullName)).toFinset).card :=
  compareMetadata_partition_card [exLocalA] [exRemoteA, exRemoteB]
    (by decide) (by decide) (by decide) (by decide)

/-- C2: a component whose fullName occurs on both sides lands in `synced`
(never in `localOnly` or `remoteOnly`), re-tagged `synced` and enriched with
the remote side's `lastModifiedDate`/`lastModifiedBy`; in particular local
`[A]` versus remote `[A, B]` yields `localOnly = []`, `remoteOnly = [B]`,
`synced = [A]`. -/
theorem compareMetadata_both_sides_synced (l r : List MetadataComponent)
    (c : MetadataComponent) (hcl : c ∈ l) (hcr : c.fullName ∈ r.map (·.fullName)) :
    (∀ d ∈ (compareMetadata l r).localOnly, d.fullName ≠ c.fullName) ∧
    (∀ d ∈ (compareMetadata l r).remoteOnly, d.fullName ≠ c.fullName) ∧
    ({ c with
        status := MetadataStatus.synced
        lastModifiedDate :=
          (r.find? (fun rc => rc.fullName == c.fullName)).bind (·.lastModifiedDate)
        lastModifiedBy :=
          (r.find? (fun rc => rc.fullName == c.fullName)).bind (·.lastModifiedBy) }
      ∈ (compareMetadata l r).synced) ∧
    compareMetadata [exLocalA] [exRemoteA, exRemoteB]
      = { localOnly := []
          remoteOnly := [{ exRemoteB with status := MetadataStatus.remoteOnly }]
          synced := [{ exLocalA with
              status := MetadataStatus.synced
              lastModifiedDate := some "2026-01-01"
              lastModifiedBy := some "admin" }]
          conflicts := [] } := by
  have hcrF : c.fullName ∈ (r.map (·.fullName)).toFinset := List.mem_toFinset.mpr hcr
  have hclF : c.fullName ∈ (l.map (·.fullName)).toFinset :=
    List.mem_toFinset.mpr (List.mem_map_of_mem _ hcl)
  refine ⟨?_, ?_, ?_, by decide⟩
  · intro d hd
    simp only [compareMetadata, List.mem_map, List.mem_filter] at hd
    obtain ⟨e, ⟨_, he⟩, rfl⟩ := hd
    simp only [decide_eq_true_eq] at he
    intro hne
    have hef : e.fullName = c.fullName := hne
    exact he (by simpa [hef] using hcrF)
  · intro d hd
    simp only [compareMetadata, List.mem_map, List.mem_filter] at hd
    obtain ⟨e, ⟨_, he⟩, rfl⟩ := hd
    simp only [decide_eq_true_eq] at he
    intro hne
    have hef : e.fullName = c.fullName := hne
    exact he (by simpa [hef] using hclF)
  · simp only [compareMetadata, List.mem_map]
    refine ⟨c, List.mem_filter.mpr ⟨hcl, by simpa using hcrF⟩, rfl⟩

/-- Witness for `compareMetadata_both_sides_synced` at the concrete
inventories `[A(local)]` vs `[A(remote), B(remote)]` with `c = A(local)`. -/
theorem compareMetadata_both_sides_synced_witness :
    (∀ d ∈ (compareMetadata [exLocalA] [exRemoteA, exRemoteB]).localOnly,
      d.fullName ≠ exLocalA.fullName) ∧
    (∀ d ∈ (compareMetadata [exLocalA] [exRemoteA, exRemoteB]).remoteOnly,
      d.fullName ≠ exLocalA.fullName) ∧
    ({ exLocalA with
        status := MetadataStatus.synced
        lastModifiedDate :=
          ([exRemoteA, exRemoteB].find?
            (fun rc => rc.fullName == exLocalA.fullName)).bind (·.lastModifiedDate)
        lastModifiedBy :=
          ([exRemoteA, exRemoteB].find?
            (fun rc => rc.fullName == exLocalA.fullName)).bind (·.lastModifiedBy) }
      ∈ (compareMetadata [exLocalA] [exRemoteA, exRemoteB]).synced) ∧
    compareMetadata [exLocalA] [exRemoteA, exRemoteB]
      = { localOnly := []
          remoteOnly := [{ exRemoteB with status := MetadataStatus.remoteOnly }]
          synced := [{ exLocalA with
              status := MetadataStatus.synced
              lastModifiedDate := some "2026-01-01"
              lastModifiedBy := some "admin" }]
          conflicts := [] } :=
  compareMetadata_both_sides_synced [exLocalA] [exRemoteA, exRemoteB] exLocalA
    (by decide) (by decide)

/-- `useSelection.toggle` (`src/hooks/useMetadata.ts` lines 227–237): flip
membership of one id in the selected-id set. -/
def toggle (id : String) (selectedIds : Finset String) : Finset String :=
  if id ∈ selectedIds then selectedIds.erase id else insert id selectedIds

/-- `useSelection.toggleMultiple` (`src/hooks/useMetadata.ts` lines 239–251):
if every id of the input is selected, delete them all, otherwise add them
all (`ids.every` / `ids.forEach` over a copy of the previous `Set`). -/
def toggleMultiple (ids : List String) (selectedIds : Finset String) : Finset String :=
  let allSelected := ids.all (fun id => id ∈ selectedIds)
  if allSelected then ids.foldl (fun next id => next.erase id) selectedIds
  else ids.foldl (fun next id => insert id next) selectedIds

/-- `useSelection.selectAll` (`src/hooks/useMetadata.ts` lines 253–255):
the previous selection is discarded and replaced by
`new Set(components.map((component) => component.id))`. -/
def selectAll (components : List MetadataComponent) (_selectedIds : Finset String) :
    Finset String :=
  (components.map (·.id)).toFinset

/-- `useSelection.deselectAll` (`src/hooks/useMetadata.ts` lines 257–259). -/
def deselectAll (_selectedIds : Finset String) : Finset String := ∅

/-- `useSelection.selectedComponents` (`src/hooks/useMetadata.ts` lines
263–266): `allComponents.filter((component) => selectedIds.has(component.id))`. -/
def selectedComponents (allComponents : List MetadataComponent)
    (selectedIds : Finset String) : List MetadataComponent :=
  allComponents.filter (fun c => c.id ∈ selectedIds)

/-- `useSelection`'s derived `count` (`src/hooks/useMetadata.ts` line 277):
`selectedComponents.length`. -/
def selectionCount (allComponents : List MetadataComponent)
    (selectedIds : Finset String) : Nat :=
  (selectedComponents allComponents selectedIds).length

/-- A sequence of individual `toggle` calls, used to model toggles
performed between two `toggleMultiple` calls. -/
def applyToggles (js : List String) (selectedIds : Finset String) : Finset String :=
  js.foldl (fun acc j => toggle j acc) selectedIds

theorem foldl_erase_eq_sdiff (ids : List String) (s : Finset String) :
    ids.foldl (fun next id => next.erase id) s = s \ ids.toFinset := by
  induction ids generalizing s with
  | nil => simp
  | cons a t ih =>
    simp only [List.foldl_cons, List.toFinset_cons, ih]
    ext x
    simp only [Finset.mem_sdiff, Finset.mem_erase, Finset.mem_insert]
    tauto

theorem foldl_insert_eq_union (ids : List String) (s : Finset String) :
    ids.foldl (fun next id => insert id next) s = s ∪ ids.toFinset := by
  induction ids generalizing s with
  | nil => simp
  | cons a t ih =>
    simp only [List.foldl_cons, List.toFinset_cons, ih]
    ext x
    simp only [Finset.mem_union, Finset.mem_insert]
    tauto

theorem toggleMultiple_eq_ite (ids : List String) (s : Finset String) :
    toggleMultiple ids s
      = if ∀ i ∈ ids, i ∈ s then s \ ids.toFinset else s ∪ ids.toFinset := by
  simp only [toggleMultiple, foldl_erase_eq_sdiff, foldl_insert_eq_union]
  by_cases h : ∀ i ∈ ids, i ∈ s
  · have hall : (ids.all fun id => decide (id ∈ s)) = true := by
      simp only [List.all_eq_true, decide_eq_true_eq]
      exact h
    rw [if_pos h, hall]
    simp
  · have hall : (ids.all fun id => decide (id ∈ s)) = false := by
      simp only [List.all_eq_false]
      push_neg at h
      obtain ⟨i, hi, his⟩ := h
      exact ⟨i, hi, by simpa using his⟩
    rw [if_neg h, hall]
    simp

theorem toggle_mem_iff_of_ne (j x : String) (s : Finset String) (h : j ≠ x) :
    x ∈ toggle j s ↔ x ∈ s := by
  unfold toggle
  split
  · rw [Finset.mem_erase]
    exact and_iff_right (fun he => h he.symm)
  · rw [Finset.mem_insert]
    exact or_iff_right (fun he => h he.symm)

theorem applyToggles_mem_iff (js : List String) (x : String) (s : Finset String)
    (h : ∀ j ∈ js, j ≠ x) : x ∈ applyToggles js s ↔ x ∈ s := by
  induction js generalizing s with
  | nil => simp [applyToggles]
  | cons a t ih =>
    simp only [applyToggles, List.foldl_cons]
    rw [show (t.foldl (fun acc j => toggle j acc) (toggle a s)) =
      applyToggles t (toggle a s) from rfl]
    rw [ih (toggle a s) (fun j hj => h j (List.mem_cons_of_mem a hj))]
    exact toggle_mem_iff_of_ne a x s (h a (List.mem_cons_self a t))

theorem toggle_sdiff_distrib (j : String) (s I : Finset String) (hj : j ∉ I) :
    toggle j (s \ I) = toggle j s \ I := by
  unfold toggle
  by_cases hjs : j ∈ s
  · rw [if_pos (Finset.mem_sdiff.mpr ⟨hjs, hj⟩), if_pos hjs]
    ext x
    simp only [Finset.mem_erase, Finset.mem_sdiff]
    tauto
  · rw [if_neg (fun hc => hjs (Finset.mem_sdiff.mp hc).1), if_neg hjs]
    ext x
    by_cases hx : x = j
    · subst hx
      simp [hj]
    · simp only [Finset.mem_insert, Finset.mem_sdiff, hx, false_or]

theorem toggle_union_distrib (j : String) (s I : Finset String) (hj : j ∉ I) :
    toggle j (s ∪ I) = toggle j s ∪ I := by
  unfold toggle
  by_cases hjs : j ∈ s
  · rw [if_pos (Finset.mem_union_left I hjs), if_pos hjs]
    ext x
    by_cases hx : x = j
    · subst hx
      simp [hj]
    · simp only [Finset.mem_erase, Finset.mem_union]
      have hxj : x ∈ I → x ≠ j := fun hxi he => hj (he ▸ hxi)
      tauto
  · rw [if_neg (fun hc => (Finset.mem_union.mp hc).elim hjs hj), if_neg hjs]
    ext x
    simp only [Finset.mem_insert, Finset.mem_union]
    tauto

theorem applyToggles_sdiff (js : List String) (s I : Finset String)
    (h : ∀ j ∈ js, j ∉ I) : applyToggles js (s \ I) = applyToggles js s \ I := by
  induction js generalizing s with
  | nil => simp [applyToggles]
  | cons a t ih =>
    simp only [applyToggles, List.foldl_cons]
    rw [toggle_sdiff_distrib a s I (h a (List.mem_cons_self a t))]
    exact ih (toggle a s) (fun j hj => h j (List.mem_cons_of_mem a hj))

theorem applyToggles_union (js : List String) (s I : Finset String)
    (h : ∀ j ∈ js, j ∉ I) : applyToggles js (s ∪ I) = applyToggles js s ∪ I := by
  induction js generalizing s with
  | nil => simp [applyToggles]
  | cons a t ih =>
    simp only [applyToggles, List.foldl_cons]
    rw [toggle_union_distrib a s I (h a (List.mem_cons_self a t))]
    exact ih (toggle a s) (fun j hj => h j (List.mem_cons_of_mem a hj))

/-- C3: `toggleMultiple` is a group toggle, not a per-id toggle: when every
input id is selected all of them are removed, otherwise all of them are
added, and ids outside the input keep their membership (the result is
`s \ ids` respectively `s ∪ ids`); `toggleMultiple ["1","2"]` on the empty
selection yields `{1, 2}` and applying it again yields the empty selection. -/
theorem toggleMultiple_group_toggle (s : Finset String) (ids : List String) :
    toggleMultiple ids s
        = (if ∀ i ∈ ids, i ∈ s then s \ ids.toFinset else s ∪ ids.toFinset) ∧
    toggleMultiple ["1", "2"] (∅ : Finset String) = {"1", "2"} ∧
    toggleMultiple ["1", "2"] (toggleMultiple ["1", "2"] (∅ : Finset String))
      = (∅ : Finset String) :=
  ⟨toggleMultiple_eq_ite ids s, by decide, by decide⟩

/-- The claim "`toggleMultiple(ids)` applied twice restores the original
selection for every selection state" fails on a mixed group: starting from
`{1}`, toggling the group `["1","2"]` twice ends at `∅`, not `{1}`. -/
theorem toggleMultiple_roundtrip_counterexample :
    toggleMultiple ["1", "2"] (toggleMultiple ["1", "2"] ({"1"} : Finset String))
      ≠ ({"1"} : Finset String) := by decide

/-- C4 (amended): if the group `ids` is uniformly selected or uniformly
unselected, applying `toggleMultiple ids` twice restores the original
selection, even across intervening individual toggles of ids outside the
group. -/
theorem toggleMultiple_roundtrip (s : Finset String) (ids js : List String)
    (hjs : ∀ j ∈ js, j ∉ ids)
    (hhom : (∀ i ∈ ids, i ∈ s) ∨ (∀ i ∈ ids, i ∉ s)) :
    toggleMultiple ids (toggleMultiple ids s) = s ∧
    toggleMultiple ids (applyToggles js (toggleMultiple ids s)) = applyToggles js s := by
  rcases List.eq_nil_or_concat ids with hnil | _
  case inl =>
    subst hnil
    simp [toggleMultiple, applyToggles]
  case inr =>
    have hne : ids ≠ [] := by
      rename_i hconcat
      obtain ⟨t, a, rfl⟩ := hconcat
      simp
    obtain ⟨i0, hi0⟩ := List.exists_mem_of_ne_nil ids hne
    have hjsF : ∀ j ∈ js, j ∉ ids.toFinset := by
      intro j hj
      simpa using hjs j hj
    rcases hhom with hall | hnone
    · have h1 : toggleMultiple ids s = s \ ids.toFinset := by
        rw [toggleMultiple_eq_ite, if_pos hall]
      have hsub : ids.toFinset ⊆ s := fun x hx => hall x (List.mem_toFinset.mp hx)
      have hnotall : ¬ ∀ i ∈ ids, i ∈ s \ ids.toFinset := by
        intro hc
        exact (Finset.mem_sdiff.mp (hc i0 hi0)).2 (List.mem_toFinset.mpr hi0)
      have h2 : toggleMultiple ids (s \ ids.toFinset) = s := by
        rw [toggleMultiple_eq_ite, if_neg hnotall, Finset.sdiff_union_self_eq_union,
          Finset.union_eq_left.mpr hsub]
      refine ⟨by rw [h1, h2], ?_⟩
      rw [h1, applyToggles_sdiff js s ids.toFinset hjsF]
      have hsub2 : ids.toFinset ⊆ applyToggles js s := by
        intro x hx
        have hx' : x ∈ ids := List.mem_toFinset.mp hx
        exact (applyToggles_mem_iff js x s
          (fun j hj he => hjs j hj (he ▸ hx'))).mpr (hall x hx')
      have hnotall2 : ¬ ∀ i ∈ ids, i ∈ applyToggles js s \ ids.toFinset := by
        intro hc
        exact (Finset.mem_sdiff.mp (hc i0 hi0)).2 (List.mem_toFinset.mpr hi0)
      rw [toggleMultiple_eq_ite, if_neg hnotall2, Finset.sdiff_union_self_eq_union,
        Finset.union_eq_left.mpr hsub2]
    · have hnotall : ¬ ∀ i ∈ ids, i ∈ s := fun hc => hnone i0 hi0 (hc i0 hi0)
      have h1 : toggleMultiple ids s = s ∪ ids.toFinset := by
        rw [toggleMultiple_eq_ite, if_neg hnotall]
      have hdisj : ∀ x ∈ ids.toFinset, x ∉ s := fun x hx =>
        hnone x (List.mem_toFinset.mp hx)
      have hall2 : ∀ i ∈ ids, i ∈ s ∪ ids.toFinset := fun i hi =>
        Finset.mem_union_right s (List.mem_toFinset.mpr hi)
      have h2 : toggleMultiple ids (s ∪ ids.toFinset) = s := by
        rw [toggleMultiple_eq_ite, if_pos hall2, Finset.union_sdiff_right,
          Finset.sdiff_eq_self_iff_disjoint.mpr
            (Finset.disjoint_right.mpr (fun _ hx => hdisj _ hx))]
      refine ⟨by rw [h1, h2], ?_⟩
      rw [h1, applyToggles_union js s ids.toFinset hjsF]
      have hall3 : ∀ i ∈ ids, i ∈ applyToggles js s ∪ ids.toFinset := fun i hi =>
        Finset.mem_union_right _ (List.mem_toFinset.mpr hi)
      have hdisj2 : ∀ x ∈ ids.toFinset, x ∉ applyToggles js s := by
        intro x hx hxs
        have hx' : x ∈ ids := List.mem_toFinset.mp hx
        exact hnone x hx'
          ((applyToggles_mem_iff js x s (fun j hj he => hjs j hj (he ▸ hx'))).mp hxs)
      rw [toggleMultiple_eq_ite, if_pos hall3, Finset.union_sdiff_right,
        Finset.sdiff_eq_self_iff_disjoint.mpr
          (Finset.disjoint_right.mpr (fun _ hx => hdisj2 _ hx))]

/-- Witness for `toggleMultiple_roundtrip`: group `["1","2"]` fully selected
inside `{1, 2, x}`, with an intervening toggle of `"x"` and of `"y"`. -/
theorem toggleMultiple_roundtrip_witness :
    toggleMultiple ["1", "2"]
        (toggleMultiple ["1", "2"] ({"1", "2", "x"} : Finset String))
      = ({"1", "2", "x"} : Finset String) ∧
    toggleMultiple ["1", "2"]
        (applyToggles ["x", "y"]
          (toggleMultiple ["1", "2"] ({"1", "2", "x"} : Finset String)))
      = applyToggles ["x", "y"] ({"1", "2", "x"} : Finset String) :=
  toggleMultiple_roundtrip ({"1", "2", "x"} : Finset String) ["1", "2"] ["x", "y"]
    (by decide) (Or.inl (by decide))

/-- C5: `selectAll` is a full replacement: `selectAll xs` then `selectAll ys`
leaves the selection exactly the set of ids of `ys`, independent of the
prior selection — never a union with it. -/
theorem selectAll_replaces (s : Finset String) (xs ys : List MetadataComponent) :
    selectAll ys (selectAll xs s) = (ys.map (·.id)).toFinset ∧
    selectAll ys (selectAll xs s) = selectAll ys s :=
  ⟨rfl, rfl⟩

/-- C10: `selectedComponents` holds exactly the supplied components whose id
is selected, `count` is its length, and a dangling selected id (no component
in the current list carries it) contributes neither a member nor to the
count. -/
theorem selectedComponents_spec (comps : List MetadataComponent) (s : Finset String) :
    (∀ c, c ∈ selectedComponents comps s ↔ c ∈ comps ∧ c.id ∈ s) ∧
    selectionCount comps s = (selectedComponents comps s).length ∧
    (∀ d ∈ s, (∀ c ∈ comps, c.id ≠ d) →
      selectedComponents comps (s.erase d) = selectedComponents comps s ∧
      selectionCount comps (s.erase d) = selectionCount comps s) := by
  refine ⟨?_, rfl, ?_⟩
  · intro c
    simp [selectedComponents, List.mem_filter]
  · intro d _ hd
    have hfe : selectedComponents comps (s.erase d) = selectedComponents comps s := by
      unfold selectedComponents
      apply List.filter_congr
      intro c hc
      simp only [decide_eq_decide]
      rw [Finset.mem_erase]
      exact and_iff_right (hd c hc)
    exact ⟨hfe, by unfold selectionCount; rw [hfe]⟩

/-- Witness for `selectedComponents_spec`: component list `[A(local)]` with
selection `{local-T-0, dangling}`; erasing the dangling id leaves the
derived list and count unchanged. -/
theorem selectedComponents_spec_witness :
    (exLocalA ∈ selectedComponents [exLocalA] ({"local-T-0", "dangling"} : Finset String)
      ↔ exLocalA ∈ [exLocalA]
          ∧ exLocalA.id ∈ ({"local-T-0", "dangling"} : Finset String)) ∧
    selectedComponents [exLocalA]
        (({"local-T-0", "dangling"} : Finset String).erase "dangling")
      = selectedComponents [exLocalA] ({"local-T-0", "dangling"} : Finset String) :=
  ⟨(selectedComponents_spec [exLocalA] ({"local-T-0", "dangling"} : Finset String)).1
      exLocalA,
    ((selectedComponents_spec [exLocalA] ({"local-T-0", "dangling"} : Finset String)).2.2
      "dangling" (by decide) (by decide)).1⟩

/-- The org record used by the staleness computation (`SfOrg` of the org
hook): only `username` and `alias` enter `App.tsx`. -/
structure SfOrg where
  username : String
  orgAlias : Option String := none
deriving DecidableEq, Repr

/-- `SyncState['lastSync']` from `src/services/SyncStateService.ts`
(lines 22–26): `{ orgUsername, timestamp, metadataTypes } | null`. -/
structure LastSyncRecord where
  orgUsername : String
  timestamp : String
  metadataTypes : List String
deriving DecidableEq, Repr

/-- `CachedMetadata` from `src/types/metadata.ts`. -/
structure CachedMetadata where
  lastFetched : String
  components : List MetadataComponent
deriving DecidableEq, Repr

/-- `SyncState` from `src/services/SyncStateService.ts` (lines 21–30); the
`ui` and `subscriptions` records do not enter the staleness computation and
are kept abstract as key/value string data. -/
structure SyncState where
  lastSync : Option LastSyncRecord
  cache : List (String × CachedMetadata) := []
deriving DecidableEq, Repr

/-- `lastSyncOrg` of the sync-state hook (unnamed source file, line 113):
`state?.lastSync?.orgUsername ?? null`. -/
def lastSyncOrgOf (state : Option SyncState) : Option String :=
  (state.bind (·.lastSync)).map (·.orgUsername)

/-- JS truthiness of a `string | null` value: `null` and `""` are falsy. -/
def truthyStr : Option String → Bool
  | none => false
  | some s => !s.isEmpty

/-- `isCacheStale` of `src/components/App.tsx` line 187:
`Boolean(currentOrg && lastSyncOrg && currentOrg.username !== lastSyncOrg)`;
a JS object is always truthy, a string is truthy iff nonempty. -/
def isCacheStale (currentOrg : Option SfOrg) (lastSyncOrg : Option String) : Bool :=
  match currentOrg, lastSyncOrg with
  | some org, some ls => !ls.isEmpty && org.username ≠ ls
  | _, _ => false

/-- The `'fresh' | 'stale' | 'empty'` union of `App.tsx` line 188. -/
inductive CacheStatus where
  | fresh
  | stale
  | empty
deriving DecidableEq, Repr

/-- `cacheStatus` of `src/components/App.tsx` line 188:
`isCacheStale ? 'stale' : lastSyncOrg ? 'fresh' : 'empty'`. -/
def cacheStatus (currentOrg : Option SfOrg) (lastSyncOrg : Option String) : CacheStatus :=
  if isCacheStale currentOrg lastSyncOrg then CacheStatus.stale
  else if truthyStr lastSyncOrg then CacheStatus.fresh
  else CacheStatus.empty

/-- A persisted state whose sync record stores the empty string as remote
identity. -/
def exEmptyIdState : SyncState := ⟨some ⟨"", "2026-01-01T00:00:00Z", ["T"]⟩, []⟩

/-- The claim "stale iff a sync record exists and its stored identity
differs from the connected identity" fails when the stored identity is the
empty string: the record exists and `"" ≠ "user@example.com"`, yet the code
reports `empty`, not `stale` (the `lastSyncOrg &&` truthiness test treats
`""` like a missing record). -/
theorem isCacheStale_counterexample :
    ((some exEmptyIdState).bind (·.lastSync)).isSome = true ∧
    ((some exEmptyIdState).bind (·.lastSync)).map (·.orgUsername)
      ≠ some "user@example.com" ∧
    isCacheStale (some ⟨"user@example.com", none⟩)
      (lastSyncOrgOf (some exEmptyIdState)) = false ∧
    cacheStatus (some ⟨"user@example.com", none⟩)
      (lastSyncOrgOf (some exEmptyIdState)) = CacheStatus.empty := by
  refine ⟨rfl, by decide, rfl, rfl⟩

/-- C6 (amended): for a connected org, the cache is stale iff a sync record
exists whose stored identity is nonempty and differs from the connected
org's username; with no sync record the status is `empty` and staleness is
false (a never-synced state is empty, not stale). -/
theorem isCacheStale_iff (org : SfOrg) (state : Option SyncState) :
    (isCacheStale (some org) (lastSyncOrgOf state) = true
      ↔ ∃ rec, state.bind (·.lastSync) = some rec ∧ rec.orgUsername ≠ ""
          ∧ rec.orgUsername ≠ org.username) ∧
    (state.bind (·.lastSync) = none →
      isCacheStale (some org) (lastSyncOrgOf state) = false ∧
      cacheStatus (some org) (lastSyncOrgOf state) = CacheStatus.empty) := by
  cases hls : state.bind (·.lastSync) with
  | none =>
    have hlo : lastSyncOrgOf state = none := by rw [lastSyncOrgOf, hls]; rfl
    rw [hlo]
    refine ⟨?_, fun _ => ⟨rfl, rfl⟩⟩
    simp [isCacheStale, hls]
  | some rec =>
    have hlo : lastSyncOrgOf state = some rec.orgUsername := by
      rw [lastSyncOrgOf, hls]; rfl
    rw [hlo]
    refine ⟨?_, fun hc => absurd hc (Option.some_ne_none rec)⟩
    rw [show isCacheStale (some org) (some rec.orgUsername)
        = (!rec.orgUsername.isEmpty && decide (org.username ≠ rec.orgUsername))
      from rfl]
    simp only [Bool.and_eq_true, Bool.not_eq_true', decide_eq_true_eq,
      Option.some.injEq]
    constructor
    · rintro ⟨hne, hdiff⟩
      exact ⟨rec, rfl, fun hc => by rw [hc] at hne; exact absurd hne (by decide),
        fun hc => hdiff hc.symm⟩
    · rintro ⟨rec', rfl, h1, h2⟩
      exact ⟨Bool.eq_false_iff.mpr (fun hT => h1 ((String.isEmpty_iff _).mp hT)),
        fun hc => h2 hc.symm⟩

/-- Witness for `isCacheStale_iff`: a record for `old@org` while `new@org`
is connected is stale; the never-synced state (`lastSync = null`) is
`empty`, not stale. -/
theorem isCacheStale_iff_witness :
    isCacheStale (some ⟨"new@org", none⟩)
      (lastSyncOrgOf (some ⟨some ⟨"old@org", "2026-01-01T00:00:00Z", ["T"]⟩, []⟩))
      = true ∧
    isCacheStale (some ⟨"new@org", none⟩) (lastSyncOrgOf none) = false ∧
    cacheStatus (some ⟨"new@org", none⟩) (lastSyncOrgOf none) = CacheStatus.empty :=
  ⟨(isCacheStale_iff ⟨"new@org", none⟩
        (some ⟨some ⟨"old@org", "2026-01-01T00:00:00Z", ["T"]⟩, []⟩)).1.mpr
      ⟨⟨"old@org", "2026-01-01T00:00:00Z", ["T"]⟩, rfl, by decide, by decide⟩,
    ((isCacheStale_iff ⟨"new@org", none⟩ none).2 rfl).1,
    ((isCacheStale_iff ⟨"new@org", none⟩ none).2 rfl).2⟩

/-- `normalizePath` of `GitService`: `value.replace(/\\/g, '/')`. -/
def normalizePath (value : String) : String :=
  String.mk (value.toList.map (fun c => if c = '\x5c' then '/' else c))

/-- `COMMIT_HASH_REGEX = /^[0-9a-f]{7,40}$/i`: 7 to 40 hex characters. -/
def isCommitHash (s : String) : Bool :=
  7 ≤ s.length && s.length ≤ 40 && s.toList.all (fun c =>
    ('0' ≤ c && c ≤ '9') || ('a' ≤ c && c ≤ 'f') || ('A' ≤ c && c ≤ 'F'))

/-- `String.split('\n')` at the character level: splitting the empty string
yields one empty segment, a trailing newline yields a trailing empty
segment, as in JS. -/
def splitOnNewline : List Char → List (List Char)
  | [] => [[]]
  | x :: xs =>
    match splitOnNewline xs with
    | [] => [[]]
    | y :: ys => if x = '\n' then [] :: y :: ys else (x :: y) :: ys

/-- JS `String.prototype.trim`: strip leading and trailing whitespace. -/
def trimChars (l : List Char) : List Char :=
  ((l.dropWhile Char.isWhitespace).reverse.dropWhile Char.isWhitespace).reverse

/-- The `.trim()` applied to raw git stdout values. -/
def trimStr (s : String) : String :=
  String.mk (trimChars s.toList)

/-- Post-processing of git stdout in `GitService`:
`.split('\n').map((file) => file.trim()).filter((file) => file.length > 0)`. -/
def processDiffLines (out : String) : List String :=
  (((splitOnNewline out.toList).map (fun l => String.mk (trimChars l))).filter
    (fun f => f.length > 0))

/-- The `git` collaborator of `GitService.getModifiedFilesFromCommit`: each
field models one `execFileSync('git', ...)` call, `Except.error` modelling a
thrown error (its message). -/
structure GitOracle where
  diffTree : String → Except String String
  revParseMergeParent : String → Except String String
  mergeBase : String → String → Except String String
  diffRange : String → String → Except String String

/-- The `{ files, warning? }` value returned per commit by
`GitService.getModifiedFilesFromCommit`. -/
structure CommitFiles where
  files : List String
  warning : Option String := none
deriving DecidableEq, Repr

/-- `GitFileResult` of `GitService`. -/
structure GitFileResult where
  files : List String
  warnings : List String
deriving DecidableEq, Repr

/-- The inner `try` block of `getModifiedFilesFromCommit` (the merge-commit
fallback): `rev-parse commit^2`, `merge-base commit^1 parent`, then
`diff --name-only --diff-filter=ACMRT base commit`, outputs trimmed. -/
def mergeFallback (git : GitOracle) (commitHash : String) :
    Except String (List String) := do
  let mergeParentRaw ← git.revParseMergeParent commitHash
  let mergeParent := trimStr mergeParentRaw
  let mergeBaseRaw ← git.mergeBase commitHash mergeParent
  let mergeBase := trimStr mergeBaseRaw
  let mergeOutput ← git.diffRange mergeBase commitHash
  pure (processDiffLines mergeOutput)

/-- `GitService.getModifiedFilesFromCommit` (unnamed source file, lines
108–158): reject non-hash identifiers with a warning; run `diff-tree`; on
empty direct output fall back to the merge-base diff, downgrading a
fallback fault to a warning; a `diff-tree` fault becomes an
`Error processing commit` warning. -/
def getModifiedFilesFromCommit (git : GitOracle) (commitHash : String) : CommitFiles :=
  if !isCommitHash commitHash then
    { files := [], warning := some ("Invalid commit hash format: " ++ commitHash) }
  else
    match git.diffTree commitHash with
    | Except.error e =>
        { files := [],
          warning := some ("Error processing commit " ++ commitHash ++ ": " ++ e) }
    | Except.ok out =>
        let output := processDiffLines out
        if output.length > 0 then { files := output }
        else
          match mergeFallback git commitHash with
          | Except.ok files => { files := files }
          | Except.error _ =>
              { files := [],
                warning := some ("Could not resolve merge files for " ++ commitHash ++ ".") }

/-- The `for (const commitHash of commitHashes)` loop of
`getModifiedFilesFromCommits`: files concatenated, warnings pushed in
order. -/
def collectCommitFiles (git : GitOracle) : List String → List String × List String
  | [] => ([], [])
  | h :: t =>
      let r := getModifiedFilesFromCommit git h
      let rest := collectCommitFiles git t
      (r.files ++ rest.1,
        match r.warning with
        | some w => w :: rest.2
        | none => rest.2)

/-- `.replace(/\/$/, '')`: strip one trailing slash. -/
def dropTrailingSlash (s : String) : String :=
  if s.toList.getLast? = some '/' then String.mk s.toList.dropLast else s

/-- `filterFilesToPackages` of `GitService` (lines 34–41). -/
def filterFilesToPackages (files packageDirs : List String) : List String :=
  if packageDirs.length = 0 then files
  else
    let normalizedDirs := packageDirs.map (fun dir => dropTrailingSlash (normalizePath dir))
    files.filter (fun file =>
      normalizedDirs.any (fun dir =>
        file == dir || (dir ++ "/").toList.isPrefixOf file.toList))

/-- `GitService.getModifiedFilesFromCommits` (lines 56–77); `packageDirs` is
the result of the external `getPackageDirectories` call. -/
def getModifiedFilesFromCommits (git : GitOracle) (packageDirs : List String)
    (commitHashes : List String) : GitFileResult :=
  let collected := collectCommitFiles git commitHashes
  let uniqueFiles := ((collected.1.map normalizePath).eraseDups).filter
    (fun f => f.length > 0)
  let filtered := filterFilesToPackages uniqueFiles packageDirs
  let warnings :=
    if uniqueFiles.length > 0 && filtered.length = 0 && packageDirs.length > 0 then
      collected.2 ++ ["No files matched the configured packageDirectories."]
    else collected.2
  { files := filtered, warnings := warnings }

theorem collectCommitFiles_append (git : GitOracle) (l1 l2 : List String) :
    collectCommitFiles git (l1 ++ l2)
      = ((collectCommitFiles git l1).1 ++ (collectCommitFiles git l2).1,
         (collectCommitFiles git l1).2 ++ (collectCommitFiles git l2).2) := by
  induction l1 with
  | nil => simp [collectCommitFiles]
  | cons a t ih =>
    simp only [List.cons_append, collectCommitFiles, ih]
    cases (getModifiedFilesFromCommit git a).warning <;> simp [ih]

/-- A concrete git collaborator for witnesses: one commit with direct diff
output, every other commit has empty direct output and a failing merge
fallback. -/
def exGitOracle : GitOracle where
  diffTree := fun h =>
    if h = "abc1234" then Except.ok "force-app/main/a.cls\n" else Except.ok ""
  revParseMergeParent := fun _ => Except.error "fatal: bad revision"
  mergeBase := fun _ _ => Except.error "fatal: no merge base"
  diffRange := fun _ _ => Except.error "fatal: bad diff"

/-- C7: a commit identifier failing the hex-hash shape check contributes the
`Invalid commit hash format` warning and zero files, and the remaining
identifiers of the batch are processed exactly as if the invalid one were
absent (same files; its warning spliced between the siblings' warnings). -/
theorem invalid_commit_hash_skipped (git : GitOracle) (packageDirs pre post : List String)
    (h : String) (hbad : isCommitHash h = false) :
    getModifiedFilesFromCommit git h
      = { files := [], warning := some ("Invalid commit hash format: " ++ h) } ∧
    collectCommitFiles git (pre ++ h :: post)
      = ((collectCommitFiles git pre).1 ++ (collectCommitFiles git post).1,
         (collectCommitFiles git pre).2
           ++ ("Invalid commit hash format: " ++ h) :: (collectCommitFiles git post).2) ∧
    (getModifiedFilesFromCommits git packageDirs (pre ++ h :: post)).files
      = (getModifiedFilesFromCommits git packageDirs (pre ++ post)).files ∧
    ("Invalid commit hash format: " ++ h)
      ∈ (getModifiedFilesFromCommits git packageDirs (pre ++ h :: post)).warnings := by
  have hper : getModifiedFilesFromCommit git h
      = { files := [], warning := some ("Invalid commit hash format: " ++ h) } := by
    unfold getModifiedFilesFromCommit
    rw [hbad]
    rfl
  have hcoll : collectCommitFiles git (pre ++ h :: post)
      = ((collectCommitFiles git pre).1 ++ (collectCommitFiles git post).1,
         (collectCommitFiles git pre).2
           ++ ("Invalid commit hash format: " ++ h) :: (collectCommitFiles git post).2) := by
    rw [collectCommitFiles_append]
    simp [collectCommitFiles, hper]
  refine ⟨hper, hcoll, ?_, ?_⟩
  · simp only [getModifiedFilesFromCommits, hcoll, collectCommitFiles_append]
  · simp only [getModifiedFilesFromCommits, hcoll]
    split
    · exact List.mem_append_left _
        (List.mem_append.mpr (Or.inr (List.mem_cons_self _ _)))
    · exact List.mem_append.mpr (Or.inr (List.mem_cons_self _ _))

/-- Witness for `invalid_commit_hash_skipped`: the malformed identifier
`"nothex!"` alongside the valid commit `abc1234`. -/
theorem invalid_commit_hash_skipped_witness :
    isCommitHash "nothex!" = false ∧
    getModifiedFilesFromCommit exGitOracle "nothex!"
      = { files := [], warning := some ("Invalid commit hash format: " ++ "nothex!") } ∧
    (getModifiedFilesFromCommits exGitOracle [] (["abc1234"] ++ "nothex!" :: [])).files
      = (getModifiedFilesFromCommits exGitOracle [] (["abc1234"] ++ [])).files :=
  ⟨by decide,
    (invalid_commit_hash_skipped exGitOracle [] ["abc1234"] [] "nothex!" (by decide)).1,
    (invalid_commit_hash_skipped exGitOracle [] ["abc1234"] [] "nothex!" (by decide)).2.2.1⟩

/-- C8: for a valid identifier whose direct `diff-tree` output is empty (the
merge-commit edge case), the result is the merge-base fallback diff; if the
fallback faults, the commit yields the `Could not resolve merge files`
warning and zero files, and the rest of the batch still proceeds. -/
theorem merge_commit_fallback (git : GitOracle) (packageDirs pre post : List String)
    (h out : String) (hgood : isCommitHash h = true)
    (hout : git.diffTree h = Except.ok out) (hempty : processDiffLines out = []) :
    (∀ fs, mergeFallback git h = Except.ok fs →
      getModifiedFilesFromCommit git h = { files := fs, warning := none }) ∧
    (∀ e, mergeFallback git h = Except.error e →
      getModifiedFilesFromCommit git h
        = { files := [],
            warning := some ("Could not resolve merge files for " ++ h ++ ".") } ∧
      collectCommitFiles git (pre ++ h :: post)
        = ((collectCommitFiles git pre).1 ++ (collectCommitFiles git post).1,
           (collectCommitFiles git pre).2
             ++ ("Could not resolve merge files for " ++ h ++ ".")
               :: (collectCommitFiles git post).2) ∧
      (getModifiedFilesFromCommits git packageDirs (pre ++ h :: post)).files
        = (getModifiedFilesFromCommits git packageDirs (pre ++ post)).files) := by
  constructor
  · intro fs hfb
    unfold getModifiedFilesFromCommit
    rw [hgood, hout]
    simp [hempty, hfb]
  · intro e hfb
    have hper : getModifiedFilesFromCommit git h
        = { files := [],
            warning := some ("Could not resolve merge files for " ++ h ++ ".") } := by
      unfold getModifiedFilesFromCommit
      rw [hgood, hout]
      simp [hempty, hfb]
    have hcoll : collectCommitFiles git (pre ++ h :: post)
        = ((collectCommitFiles git pre).1 ++ (collectCommitFiles git post).1,
           (collectCommitFiles git pre).2
             ++ ("Could not resolve merge files for " ++ h ++ ".")
               :: (collectCommitFiles git post).2) := by
      rw [collectCommitFiles_append]
      simp [collectCommitFiles, hper]
    refine ⟨hper, hcoll, ?_⟩
    simp only [getModifiedFilesFromCommits, hcoll, collectCommitFiles_append]

/-- Witness for `merge_commit_fallback`: the valid hash `badc0de` has empty
direct diff output and a failing fallback in `exGitOracle`; the sibling
commit `abc1234` still contributes its file. -/
theorem merge_commit_fallback_witness :
    isCommitHash "badc0de" = true ∧
    getModifiedFilesFromCommit exGitOracle "badc0de"
      = { files := [],
          warning := some ("Could not resolve merge files for " ++ "badc0de" ++ ".") } ∧
    (getModifiedFilesFromCommits exGitOracle [] (["abc1234"] ++ "badc0de" :: [])).files
      = (getModifiedFilesFromCommits exGitOracle [] (["abc1234"] ++ [])).files :=
  ⟨by decide,
    (((merge_commit_fallback exGitOracle [] ["abc1234"] [] "badc0de" ""
        (by decide) (by simp [exGitOracle]) (by decide)).2 "fatal: bad revision"
        (by simp only [mergeFallback, exGitOracle]; rfl))).1,
    (((merge_commit_fallback exGitOracle [] ["abc1234"] [] "badc0de" ""
        (by decide) (by simp [exGitOracle]) (by decide)).2 "fatal: bad revision"
        (by simp only [mergeFallback, exGitOracle]; rfl))).2.2⟩

/-- Bool substring test: does `needle` occur as a contiguous run in `hay`? -/
def containsInfix (hay needle : List Char) : Bool :=
  needle.isPrefixOf hay ||
    match hay with
    | [] => false
    | _ :: t => containsInfix t needle

/-- `MetadataService.isCanceled` (`src/services/MetadataService.ts` lines
149–155): falsy values are not cancelled; otherwise the case-insensitive
regex `/cancelled|canceled/i` is tested. -/
def isCanceled (value : Option String) : Bool :=
  match value with
  | none => false
  | some v =>
    if v.isEmpty then false
    else
      let lower := v.toList.map Char.toLower
      containsInfix lower "cancelled".toList || containsInfix lower "canceled".toList

/-- A JS value that may be `undefined`, a bare element, or an array — the
shape of `result.response.messages` / `componentFailures`. -/
inductive JsArrayOr (α : Type) where
  | undef
  | single (a : α)
  | array (l : List α)

/-- One member of `result.response.messages`: `string | { fileName?,
problem? }`. -/
inductive RetrieveMessage where
  | str (value : String)
  | obj (fileName : Option String) (problem : Option String)

/-- The fields of `result.response` read by `MetadataService.retrieve`. -/
structure RetrieveResponse where
  status : Option String
  success : Bool
  messages : JsArrayOr RetrieveMessage

/-- The `{ success, message, details? }` result shape of
`MetadataService.retrieve` / `deploy`. -/
structure OperationResult where
  success : Bool
  message : String
  details : Option (List String) := none
deriving DecidableEq, Repr

/-- The transport collaborator of `retrieve`: `componentSet.retrieve(...)`
(`start`) and `retrieve.pollStatus()` (`poll`); `Except.error` models a
thrown fault carrying its message. -/
structure RetrieveBehavior where
  start : Except String Unit
  poll : Except String RetrieveResponse

/-- The terminal-result handling of `MetadataService.retrieve`
(`src/services/MetadataService.ts` lines 426–457): cancellation check on
the response status, then success, then the messages-derived failure
details (array / single / missing, string or `problem` object). -/
def retrieveTerminal (components : List MetadataComponent)
    (resp : RetrieveResponse) : OperationResult :=
  if isCanceled resp.status then
    { success := false, message := "Retrieve cancelled" }
  else if resp.success then
    { success := true,
      message := "Successfully retrieved " ++ toString components.length
        ++ " component(s)",
      details := some (components.map (fun c => c.type ++ ": " ++ c.fullName)) }
  else
    let details :=
      match resp.messages with
      | JsArrayOr.array msgs => msgs.map (fun m =>
          match m with
          | RetrieveMessage.str s => s
          | RetrieveMessage.obj _ p => p.getD "Unknown error")
      | JsArrayOr.single m =>
          [match m with
            | RetrieveMessage.str s => s
            | RetrieveMessage.obj _ p => p.getD "Unknown error"]
      | JsArrayOr.undef => ["Unknown error"]
    { success := false, message := "Retrieve failed", details := some details }

/-- The body of the `try` block of `MetadataService.retrieve`: start the
transport operation, await its terminal status, shape the result. -/
def retrieveBody (components : List MetadataComponent) (b : RetrieveBehavior) :
    Except String OperationResult := do
  let _ ← b.start
  let result ← b.poll
  pure (retrieveTerminal components result)

/-- `MetadataService.retrieve` (lines 361–471): the whole body runs under
`try`/`catch`; a caught fault is converted to `Retrieve cancelled` when its
message matches the cancellation regex, otherwise to
`Retrieve error: <message>` — it never escapes. -/
def retrieve (components : List MetadataComponent) (b : RetrieveBehavior) :
    OperationResult :=
  match retrieveBody components b with
  | Except.ok r => r
  | Except.error msg =>
      if isCanceled (some msg) then
        { success := false, message := "Retrieve cancelled" }
      else
        { success := false, message := "Retrieve error: " ++ msg }

/-- One entry of `details.componentFailures` in a deploy response. -/
structure DeployFailure where
  fullName : Option String
  problem : Option String
  problemType : Option String

/-- The fields of `result.response` read by `MetadataService.deploy`. -/
structure DeployResponse where
  status : Option String
  success : Bool
  componentFailures : JsArrayOr DeployFailure

/-- The collaborators of `deploy`: resolving the selected components against
the local source (`ComponentSet.fromSource` + `getSourceComponents`, giving
the collected source-component keys), starting the deploy, and polling. -/
structure DeployBehavior where
  resolveSource : Except String (List String)
  start : Except String Unit
  poll : Except String DeployResponse

/-- The terminal-result handling of `MetadataService.deploy`
(`src/services/MetadataService.ts` lines 560–591). -/
def deployTerminal (components : List MetadataComponent)
    (resp : DeployResponse) : OperationResult :=
  if isCanceled resp.status then
    { success := false, message := "Deploy cancelled" }
  else if resp.success then
    { success := true,
      message := "Successfully deployed " ++ toString components.length
        ++ " component(s)",
      details := some (components.map (fun c => c.type ++ ": " ++ c.fullName)) }
  else
    let failureMessages :=
      match resp.componentFailures with
      | JsArrayOr.array fs => fs.map (fun f =>
          f.fullName.getD "Unknown" ++ ": " ++ f.problem.getD "Unknown error")
      | JsArrayOr.single f =>
          [f.fullName.getD "Unknown" ++ ": " ++ f.problem.getD "Unknown error"]
      | JsArrayOr.undef => ["Unknown error"]
    { success := false, message := "Deploy failed", details := some failureMessages }

/-- The body of the `try` block of `MetadataService.deploy`: resolve the
selection against local source, fail structurally when nothing matches
(`componentSet.size === 0`), otherwise start, poll, shape. -/
def deployBody (components : List MetadataComponent) (b : DeployBehavior) :
    Except String OperationResult := do
  let sourceComponents ← b.resolveSource
  if sourceComponents.length = 0 then
    pure { success := false, message := "No local components found to deploy" }
  else do
    let _ ← b.start
    let result ← b.poll
    pure (deployTerminal components result)

/-- `MetadataService.deploy` (lines 473–605): body under `try`/`catch` with
the same fault conversion as `retrieve`. -/
def deploy (components : List MetadataComponent) (b : DeployBehavior) :
    OperationResult :=
  match deployBody components b with
  | Except.ok r => r
  | Except.error msg =>
      if isCanceled (some msg) then
        { success := false, message := "Deploy cancelled" }
      else
        { success := false, message := "Deploy error: " ++ msg }

/-- C9: no raised fault escapes `retrieve` or `deploy`: a fault thrown
anywhere in the body is converted at the operation boundary into a
structured `{ success := false, message }` result (distinguishing
cancellation), a non-success transport response yields a structured
failure, and an empty local-source match yields a structured failure —
each operation always returns an `OperationResult`. -/
theorem retrieve_deploy_no_fault_escape (components : List MetadataComponent)
    (rb : RetrieveBehavior) (db : DeployBehavior) :
    (∀ e, retrieveBody components rb = Except.error e →
      retrieve components rb
        = if isCanceled (some e) then
            { success := false, message := "Retrieve cancelled" }
          else { success := false, message := "Retrieve error: " ++ e }) ∧
    (∀ r, retrieveBody components rb = Except.ok r → retrieve components rb = r) ∧
    (∀ resp, rb.start = Except.ok () → rb.poll = Except.ok resp →
      isCanceled resp.status = true →
      retrieve components rb = { success := false, message := "Retrieve cancelled" }) ∧
    (∀ resp, rb.start = Except.ok () → rb.poll = Except.ok resp →
      isCanceled resp.status = false → resp.success = false →
      (retrieve components rb).success = false ∧
      (retrieve components rb).message = "Retrieve failed") ∧
    (∀ e, deployBody components db = Except.error e →
      deploy components db
        = if isCanceled (some e) then
            { success := false, message := "Deploy cancelled" }
          else { success := false, message := "Deploy error: " ++ e }) ∧
    (∀ r, deployBody components db = Except.ok r → deploy components db = r) ∧
    (db.resolveSource = Except.ok [] →
      deploy components db
        = { success := false, message := "No local components found to deploy" }) ∧
    (∀ src resp, db.resolveSource = Except.ok src → src ≠ [] →
      db.start = Except.ok () → db.poll = Except.ok resp →
      isCanceled resp.status = false → resp.success = false →
      (deploy components db).success = false ∧
      (deploy components db).message = "Deploy failed") := by
  have hretb : ∀ resp, rb.start = Except.ok () → rb.poll = Except.ok resp →
      retrieveBody components rb = Except.ok (retrieveTerminal components resp) := by
    intro resp hs hp
    unfold retrieveBody
    rw [hs, hp]
    rfl
  refine ⟨?_, ?_, ?_, ?_, ?_, ?_, ?_, ?_⟩
  · intro e he
    unfold retrieve
    rw [he]
  · intro r hr
    unfold retrieve
    rw [hr]
  · intro resp hs hp hcan
    unfold retrieve
    rw [hretb resp hs hp]
    simp [retrieveTerminal, hcan]
  · intro resp hs hp hcan hfail
    unfold retrieve
    rw [hretb resp hs hp]
    constructor <;> simp [retrieveTerminal, hcan, hfail]
  · intro e he
    unfold deploy
    rw [he]
  · intro r hr
    unfold deploy
    rw [hr]
  · intro hsrc
    have hb : deployBody components db
        = Except.ok
          { success := false, message := "No local components found to deploy" } := by
      unfold deployBody
      rw [hsrc]
      rfl
    unfold deploy
    rw [hb]
  · intro src resp hsrc hne hs hp hcan hfail
    have hlen : ¬ src.length = 0 := by simpa using hne
    have hb : deployBody components db
        = Except.ok (deployTerminal components resp) := by
      unfold deployBody
      rw [hsrc]
      show (if src.length = 0 then
          (pure { success := false, message := "No local components found to deploy" }
            : Except String OperationResult)
        else do
          let _ ← db.start
          let result ← db.poll
          pure (deployTerminal components result)) = _
      rw [if_neg hlen, hs, hp]
      rfl
    unfold deploy
    rw [hb]
    constructor <;> simp [deployTerminal, hcan, hfail]

/-- A transport that faults while polling, with a non-cancellation
message. -/
def exRetrieveFault : RetrieveBehavior :=
  ⟨Except.ok (), Except.error "Connection timed out"⟩

/-- A transport whose fault message matches the cancellation regex. -/
def exRetrieveCancelFault : RetrieveBehavior :=
  ⟨Except.ok (), Except.error "Polling cancelled by user"⟩

/-- A non-success deploy response with one component failure. -/
def exDeployResp : DeployResponse :=
  ⟨some "Failed", false,
    JsArrayOr.single ⟨some "Foo", some "Missing field", some "Error"⟩⟩

/-- A deploy whose transport reports failure for one matched component. -/
def exDeployFail : DeployBehavior :=
  ⟨Except.ok ["ApexClass#Foo"], Except.ok (), Except.ok exDeployResp⟩

/-- A deploy where the selection matches no local source component. -/
def exDeployEmpty : DeployBehavior :=
  ⟨Except.ok [], Except.ok (), Except.error "unused"⟩

/-- Witness for `retrieve_deploy_no_fault_escape`: a polling fault becomes
`Retrieve error: ...`, a cancellation fault becomes `Retrieve cancelled`,
an empty source match becomes `No local components found to deploy`, and a
failed deploy response becomes `Deploy failed`. -/
theorem retrieve_deploy_no_fault_escape_witness :
    retrieve [] exRetrieveFault
      = { success := false, message := "Retrieve error: Connection timed out" } ∧
    retrieve [] exRetrieveCancelFault
      = { success := false, message := "Retrieve cancelled" } ∧
    deploy [] exDeployEmpty
      = { success := false, message := "No local components found to deploy" } ∧
    (deploy [] exDeployFail).success = false ∧
    (deploy [] exDeployFail).message = "Deploy failed" := by
  have h1 := (retrieve_deploy_no_fault_escape [] exRetrieveFault exDeployEmpty).1
    "Connection timed out" rfl
  have h2 := (retrieve_deploy_no_fault_escape [] exRetrieveCancelFault exDeployEmpty).1
    "Polling cancelled by user" rfl
  have h3 := (retrieve_deploy_no_fault_escape [] exRetrieveFault
    exDeployEmpty).2.2.2.2.2.2.1 rfl
  have h4 := (retrieve_deploy_no_fault_escape [] exRetrieveFault
    exDeployFail).2.2.2.2.2.2.2 ["ApexClass#Foo"] exDeployResp rfl (by decide)
    rfl rfl (by decide) rfl
  rw [h1, h2, h3]
  exact ⟨by decide, by decide, rfl, h4.1, h4.2⟩

end MetaExplorer
